import Mathlib

/-!
Verification development for the PDF question-extraction pipeline in
scripts/process_pdfs.py (functions clean_garbage_text, format_explanation,
parse_forum_ias).  Text is modelled as List Char; each Python regex in the
source is embedded as a bespoke scanning function whose semantics is argued
next to its definition (all the patterns are simple enough that greedy
quantifiers reduce to maximal munch and lazy ones to earliest-occurrence
search; these arguments are recorded in comments).
-/

namespace PMT

/-- ASCII lower-casing, the behaviour of Python str.lower on the ASCII inputs
this pipeline handles. -/
def lowerC (c : Char) : Char :=
  if 'A' ≤ c ∧ c ≤ 'Z' then Char.ofNat (c.toNat + 32) else c

/-- Python whitespace class (regex \s and str.strip), restricted to ASCII. -/
def isPySpace (c : Char) : Bool :=
  c == ' ' || c == '\t' || c == '\n' || c == '\r' || c == '\x0b' || c == '\x0c'

/-- Python str.strip(): remove leading and trailing whitespace. -/
def pstrip (l : List Char) : List Char :=
  ((l.dropWhile isPySpace).reverse.dropWhile isPySpace).reverse

/-- Number of leading whitespace characters (what a greedy \s* consumes when
the next pattern element cannot match whitespace). -/
def wsCount (l : List Char) : Nat := (l.takeWhile isPySpace).length

/-- Case-insensitive prefix test (the effect of re.IGNORECASE on a literal). -/
def ciPrefixEq : List Char → List Char → Bool
  | [], _ => true
  | _ :: _, [] => false
  | p :: ps, c :: cs => (lowerC p == lowerC c) && ciPrefixEq ps cs

/-- Consume a case-insensitive literal token, returning the rest. -/
def eatTokCI (tok l : List Char) : Option (List Char) :=
  if ciPrefixEq tok l then some (l.drop tok.length) else none

/-- Consume one-or-more whitespace (regex \s+ before a letter-initial literal:
maximal munch), returning the count and the rest. -/
def eatWsPlus (l : List Char) : Option (Nat × List Char) :=
  let n := wsCount l
  if n = 0 then none else some (n, l.drop n)

/-- Generic engine for re.sub / str.replace: scan left to right; at each
position not inside an already-consumed match, a matcher may report a match
(its consumed length and its replacement text); matches are non-overlapping
and scanning resumes after the end of each match, exactly as in Python.
The Nat argument counts characters still to skip from the current match. -/
def subScanAux (m : List Char → Option (Nat × List Char)) :
    List Char → Nat → List Char
  | [], _ => []
  | _ :: cs, k + 1 => subScanAux m cs k
  | c :: cs, 0 =>
    match m (c :: cs) with
    | some (n, repl) => repl ++ subScanAux m cs (n - 1)
    | none => c :: subScanAux m cs 0

/-- re.sub with a matcher: replace every non-overlapping match, left to right. -/
def reSub (m : List Char → Option (Nat × List Char)) (l : List Char) : List Char :=
  subScanAux m l 0

/-- Generic engine for re.split: matches are delimiters (the matcher reports
the consumed length); segments between matches are returned in order. -/
def splitScanAux (m : List Char → Option Nat) :
    List Char → Nat → List Char → List (List Char)
  | [], _, acc => [acc.reverse]
  | _ :: cs, k + 1, acc => splitScanAux m cs k acc
  | c :: cs, 0, acc =>
    match m (c :: cs) with
    | some n => acc.reverse :: splitScanAux m cs (n - 1) []
    | none => splitScanAux m cs 0 (c :: acc)

/-- re.split with a matcher. -/
def reSplit (m : List Char → Option Nat) (l : List Char) : List (List Char) :=
  splitScanAux m l 0 []

/-- Leftmost match of a matcher over all start positions (re.search). -/
def firstMatch {β : Type} (m : List Char → Option β) : List Char → Option β
  | [] => m []
  | c :: cs =>
    match m (c :: cs) with
    | some r => some r
    | none => firstMatch m cs

/-- Leftmost match position of a Boolean test, splitting the text into the
part before the match and the part from the match on (re.search, when only
match.start() is used). -/
def findSplitAux (t : List Char → Bool) : List Char → List Char →
    Option (List Char × List Char)
  | [], _ => none
  | c :: cs, acc =>
    if t (c :: cs) then some (acc.reverse, c :: cs)
    else findSplitAux t cs (c :: acc)

def findSplit (t : List Char → Bool) (l : List Char) :
    Option (List Char × List Char) :=
  findSplitAux t l []

/-- Python str.replace pat → repl (all non-overlapping occurrences, found
scanning the original string left to right). -/
def pyReplace (pat repl l : List Char) : List Char :=
  reSub (fun t => if List.isPrefixOf pat t then some (pat.length, repl) else none) l

/-- Substring test (used only to state theorems about outputs). -/
def hasSubstr (pat l : List Char) : Bool :=
  (firstMatch (fun t => if List.isPrefixOf pat t then some () else none) l).isSome

/-! ## clean_garbage_text (process_pdfs.py lines 31-63) -/

/-- Split into lines at each newline character (the line structure that
re.MULTILINE ^ ... $ sees); separators are not kept. -/
def splitLinesAux : List Char → List Char → List (List Char)
  | [], acc => [acc.reverse]
  | '\n' :: t, acc => acc.reverse :: splitLinesAux t []
  | c :: t, acc => splitLinesAux t (c :: acc)

/-- Step 1 (line 39): re.sub(r'(?m)^SFG 2026.*$', '', text).  Since ^ and $
are the line boundaries and . does not cross newlines, this erases the body
of every line that starts with the literal "SFG 2026", keeping the newline. -/
def sfgSub (l : List Char) : List Char :=
  List.intercalate ['\n']
    ((splitLinesAux l []).map
      (fun line => if List.isPrefixOf ("SFG 2026".toList) line then [] else line))

/-- Earliest end position of a case-insensitive occurrence of tok (what the
lazy .*? followed by tok matches up to, under re.DOTALL where . crosses
newlines): returns the number of characters up to and including tok. -/
def findCIEnd (tok : List Char) : List Char → Option Nat
  | [] => if tok.isEmpty then some 0 else none
  | c :: cs =>
    if ciPrefixEq tok (c :: cs) then some tok.length
    else (findCIEnd tok cs).map (· + 1)

/-- Matcher for the footer block (line 44):
r'Forum\s+Learning\s+Centre\s*:.*?helpdesk@forumias\.academy' with
re.DOTALL | re.IGNORECASE.  The \s+/\s* are maximal munch because the next
pattern characters are never whitespace; .*? is the earliest following
occurrence of the terminating e-mail literal. -/
def footerLen (l : List Char) : Option Nat := do
  let r1 ← eatTokCI ("forum".toList) l
  let (k1, r2) ← eatWsPlus r1
  let r3 ← eatTokCI ("learning".toList) r2
  let (k2, r4) ← eatWsPlus r3
  let r5 ← eatTokCI ("centre".toList) r4
  let k3 := wsCount r5
  match r5.drop k3 with
  | ':' :: r7 => do
    let e ← findCIEnd ("helpdesk@forumias.academy".toList) r7
    pure (5 + k1 + 8 + k2 + 6 + k3 + 1 + e)
  | _ => none

def footerSub (l : List Char) : List Char :=
  reSub (fun t => (footerLen t).map (fun n => (n, ([] : List Char)))) l

/-- The garbage_strings list (lines 49-56). -/
def garbage_strings : List (List Char) :=
  [("9311740400, 9311740900".toList),
   ("https://academy.forumias.com".toList),
   ("admissions@forumias.academy".toList),
   ("helpdesk@forumias.academy".toList),
   ("Plot No. 36, 4th Floor".toList),
   ("Hyderabad - 1st & 2nd Floor, SM Plaza".toList)]

/-- Step 3 (lines 57-58): text.replace(junk, '') for each junk string. -/
def junkSub (l : List Char) : List Char :=
  garbage_strings.foldl (fun acc j => pyReplace j [] acc) l

/-- Step 4 (line 61): re.sub(r'\n{3,}', '\n\n', text).  The greedy bounded
repeat consumes each maximal run of at least three newlines and replaces it
by exactly two; runs of one or two newlines are kept.  Implemented as a
streaming scan that counts the current newline run. -/
def collapseAux : Nat → List Char → List Char
  | seen, [] => List.replicate (min seen 2) '\n'
  | seen, c :: t =>
    if c = '\n' then collapseAux (seen + 1) t
    else List.replicate (min seen 2) '\n' ++ c :: collapseAux 0 t

def collapseNl (l : List Char) : List Char := collapseAux 0 l

/-- clean_garbage_text (lines 31-63): the four removal steps in order. -/
def clean_garbage_text (text : List Char) : List Char :=
  collapseNl (junkSub (footerSub (sfgSub text)))

/-! ## format_explanation (process_pdfs.py lines 65-90) -/

/-- Matcher for one literal keyword kw under re.sub(f"(?i)({kw})",
r'<br><br><b>\1</b>'): a case-insensitive occurrence of kw is wrapped,
preserving the original casing of the matched text. -/
def litKwTry (kw : List Char) (l : List Char) : Option (Nat × List Char) :=
  if ciPrefixEq kw l then
    some (kw.length, ("<br><br><b>".toList) ++ l.take kw.length ++ ("</b>".toList))
  else none

/-- Tail of the keyword regex "Hence option .*? is correct" after the literal
"Hence option " has matched: the lazy .*? (which cannot cross a newline)
extends to the earliest following case-insensitive " is correct".  Returns
the number of characters consumed from this point (including the literal). -/
def henceTailAux : List Char → Option Nat
  | [] => none
  | c :: cs =>
    if ciPrefixEq (" is correct".toList) (c :: cs) then some 11
    else if c == '\n' then none
    else (henceTailAux cs).map (· + 1)

/-- Matcher for the keyword regex "Hence option .*? is correct". -/
def henceTry (l : List Char) : Option (Nat × List Char) :=
  if ciPrefixEq ("hence option ".toList) l then
    match henceTailAux (l.drop 13) with
    | some k =>
      some (13 + k, ("<br><br><b>".toList) ++ l.take (13 + k) ++ ("</b>".toList))
    | none => none
  else none

/-- The keywords list (lines 72-78), in source order, as sub matchers. -/
def kwTries : List (List Char → Option (Nat × List Char)) :=
  [litKwTry ("Statement I is correct".toList),
   litKwTry ("Statement II is correct".toList),
   litKwTry ("Statement 1 is correct".toList),
   litKwTry ("Statement 2 is correct".toList),
   litKwTry ("Statement I is incorrect".toList),
   litKwTry ("Statement II is incorrect".toList),
   litKwTry ("Statement 1 is incorrect".toList),
   litKwTry ("Statement 2 is incorrect".toList),
   henceTry,
   litKwTry ("Thus,".toList),
   litKwTry ("Therefore,".toList)]

/-- Matcher for the numbered-list rewrite (line 85):
re.sub(r'\n\s*(\d+\.)\s+', r'<br><b>\1</b> ', text).  The greedy \s* and
\d+ are maximal munch (whitespace, digits and the following literals are
disjoint); group 1 is the digits plus the dot. -/
def numTry (l : List Char) : Option (Nat × List Char) :=
  match l with
  | '\n' :: t =>
    let w := wsCount t
    let t2 := t.drop w
    let ds := t2.takeWhile Char.isDigit
    if ds.isEmpty then none
    else
      match t2.drop ds.length with
      | '.' :: u =>
        let w2 := wsCount u
        if w2 = 0 then none
        else some (1 + w + ds.length + 1 + w2,
          ("<br><b>".toList) ++ ds ++ '.' :: ("</b> ".toList))
      | _ => none
  | _ => none

/-- Final cleanup (line 88): text.replace('<br><br><br>', '<br><br>'). -/
def brCleanup (l : List Char) : List Char :=
  pyReplace ("<br><br><br>".toList) ("<br><br>".toList) l

/-- format_explanation (lines 65-90). -/
def format_explanation (text : List Char) : List Char :=
  if text.isEmpty then "No explanation provided.".toList
  else
    pstrip (brCleanup (reSub numTry (kwTries.foldl (fun acc m => reSub m acc) text)))

/-! ## parse_forum_ias (process_pdfs.py lines 92-193) -/

/-- The final structured output unit (the q_obj dict of lines 179-187). -/
structure Record where
  id : Nat
  text : List Char
  options : List (List Char)
  correctAnswer : Int
  explanation : List Char
  subject : List Char
  topic : List Char
deriving DecidableEq

/-- Matcher for the question-start marker (line 100):
re.split(r'\nQ\.\s*\d+[\)\.]', text).  Greedy \s* and \d+ are maximal munch
(whitespace, digits, and the closing bracket classes are disjoint).  Returns
the consumed length. -/
def qMarkerTry (l : List Char) : Option Nat :=
  match l with
  | '\n' :: 'Q' :: '.' :: t =>
    let w := wsCount t
    let t2 := t.drop w
    let ds := t2.takeWhile Char.isDigit
    if ds.isEmpty then none
    else
      match t2.drop ds.length with
      | ')' :: _ => some (3 + w + ds.length + 1)
      | '.' :: _ => some (3 + w + ds.length + 1)
      | _ => none
  | _ => none

/-- Whether the text contains a question-start marker at any position. -/
def hasQMarker (l : List Char) : Bool := (firstMatch qMarkerTry l).isSome

/-- The block list of lines 100-103: split at the markers and drop the
preamble segment before the first marker (blocks = blocks[1:]; re.split
always returns at least one segment, so the guard len(blocks) > 0 holds). -/
def blocksOf (text : List Char) : List (List Char) :=
  (reSplit qMarkerTry (clean_garbage_text text)).drop 1

/-- Matcher for the explanation introducer (line 112):
re.search(r'(?:Exp|Explanation)[\)\:]\s*(.*)', block, re.DOTALL|re.IGNORECASE).
At a given position the branch "Exp" followed by ) or : and the branch
"Explanation" followed by ) or : are mutually exclusive (the fourth character
cannot be both a bracket and the letter l), so alternation order is
irrelevant.  Returns the text after the introducer tag. -/
def expTagM (l : List Char) : Option (List Char) :=
  if ciPrefixEq ("exp".toList) l then
    match l.drop 3 with
    | ')' :: r => some r
    | ':' :: r => some r
    | _ =>
      if ciPrefixEq ("explanation".toList) l then
        match l.drop 11 with
        | ')' :: r => some r
        | ':' :: r => some r
        | _ => none
      else none
  else none

/-- The raw explanation candidate (lines 112-113): text after the first
explanation introducer, with the greedy \s* skipping the following
whitespace, group(1) extending to the end of the block (DOTALL), and the
final .strip(). -/
def explCandidate (block : List Char) : List Char :=
  match firstMatch expTagM block with
  | some rest => pstrip (rest.dropWhile isPySpace)
  | none => []

/-- Letters a-d in either case (the class [a-dA-D]). -/
def isAnsLetter (c : Char) : Bool :=
  c == 'a' || c == 'b' || c == 'c' || c == 'd' ||
  c == 'A' || c == 'B' || c == 'C' || c == 'D'

/-- Tail of the answer sentence after its letter:
\s+is\s+the\s+correct\s+answer (case-insensitive; each \s+ is maximal munch
because the following literals start with letters).  Returns the consumed
length. -/
def sentTail (l : List Char) : Option Nat := do
  let (k1, r1) ← eatWsPlus l
  let r2 ← eatTokCI ("is".toList) r1
  let (k2, r3) ← eatWsPlus r2
  let r4 ← eatTokCI ("the".toList) r3
  let (k3, r5) ← eatWsPlus r4
  let r6 ← eatTokCI ("correct".toList) r5
  let (k4, r7) ← eatWsPlus r6
  let _ ← eatTokCI ("answer".toList) r7
  pure (k1 + 2 + k2 + 3 + k3 + 7 + k4 + 6)

/-- Matcher for ([a-dA-D])\s+is\s+the\s+correct\s+answer at one position,
returning the letter and the consumed length. -/
def ansSentence : List Char → Option (Char × Nat)
  | [] => none
  | c :: rest =>
    if isAnsLetter c then (sentTail rest).map (fun n => (c, 1 + n)) else none

/-- Group 1 of the priority answer search (line 120):
re.search(r'(?:Option\s*)?([a-dA-D])\s+is\s+the\s+correct\s+answer', ...,
re.IGNORECASE).  The optional "Option\s*" prefix never changes which letter
group 1 captures: none of the characters of "option" or of whitespace lie in
[a-dA-D], so the leftmost letter-led match is the letter of the leftmost
full match. -/
def ansSentLetterM (l : List Char) : Option Char :=
  (ansSentence l).map Prod.fst

/-- Matcher for the fallback answer tag (line 126):
re.search(r'(?:Ans|Answer)[\)\:]\s*([a-dA-D])', block, re.IGNORECASE).
The "Ans" and "Answer" branches are mutually exclusive at a position (the
fourth character cannot be both a bracket and the letter w), and the greedy
\s* before the letter is maximal munch. -/
def ansTagAfter (l : List Char) : Option (List Char) :=
  if ciPrefixEq ("ans".toList) l then
    match l.drop 3 with
    | ')' :: r => some r
    | ':' :: r => some r
    | _ =>
      if ciPrefixEq ("answer".toList) l then
        match l.drop 6 with
        | ')' :: r => some r
        | ':' :: r => some r
        | _ => none
      else none
  else none

def ansTagM (l : List Char) : Option Char :=
  match ansTagAfter l with
  | none => none
  | some r =>
    match r.drop (wsCount r) with
    | c :: _ => if isAnsLetter c then some c else none
    | [] => none

/-- The letter-to-index mapping (line 130) read through dict.get(_, -1):
mapping = {'a': 0, 'b': 1, 'c': 2, 'd': 3}. -/
def mappingGet (c : Char) : Int :=
  if c = 'a' then 0 else if c = 'b' then 1 else if c = 'c' then 2
  else if c = 'd' then 3 else -1

/-- The correct-answer computation (lines 116-131): priority search inside
the explanation candidate, then the whole-block tag fallback, lower-casing
the captured letter, defaulting to -1. -/
def correctAnswerOf (block : List Char) : Int :=
  let correct_char : Option Char :=
    match firstMatch ansSentLetterM (explCandidate block) with
    | some c => some (lowerC c)
    | none => (firstMatch ansTagM block).map lowerC
  match correct_char with
  | some c => mappingGet c
  | none => -1

/-- Trailing [\.\s]* of the removal pattern (line 135): maximal munch. -/
def trailDots (l : List Char) : Nat :=
  (l.takeWhile (fun c => c == '.' || isPySpace c)).length

/-- Matcher for the removal sub (line 135):
re.sub(r'(?:Option\s*)?[a-dA-D]\s+is\s+the\s+correct\s+answer[\.\s]*', '',
explanation, re.IGNORECASE).  The greedy-optional prefix is tried first; if
it fails the bare letter-led branch is tried at the same position. -/
def ansSentRemoveTry (l : List Char) : Option (Nat × List Char) :=
  let withPrefix : Option Nat :=
    if ciPrefixEq ("option".toList) l then
      let w := wsCount (l.drop 6)
      match ansSentence (l.drop (6 + w)) with
      | some (_, n) => some (6 + w + n + trailDots (l.drop (6 + w + n)))
      | none => none
    else none
  match withPrefix with
  | some n => some (n, [])
  | none =>
    match ansSentence l with
    | some (_, n) => some (n + trailDots (l.drop n), [])
    | none => none

/-- Removal of the answer sentence from the explanation (line 135). -/
def removeAnsSent (explanation : List Char) : List Char :=
  reSub ansSentRemoveTry explanation

/-- Test for a metadata tag at one position (line 138): the alternatives
Subject:), Topic:), Source:) are distinct literals, so order is irrelevant. -/
def metaTagTest (l : List Char) : Bool :=
  List.isPrefixOf ("Subject:)".toList) l || List.isPrefixOf ("Topic:)".toList) l ||
  List.isPrefixOf ("Source:)".toList) l

/-- Metadata truncation (line 138):
re.sub(r'(Subject:\)|Topic:\)|Source:\)).*', '', explanation, re.DOTALL)
followed by .strip(): under DOTALL the .* reaches the end of the string, so
this truncates at the first tag occurrence (case-sensitive). -/
def metaTrunc (explanation : List Char) : List Char :=
  match findSplit metaTagTest explanation with
  | some (before, _) => pstrip before
  | none => pstrip explanation

/-- The displayed explanation (lines 133-141): remove the answer sentence,
truncate at metadata tags, then format. -/
def cleanExplanation (block : List Char) : List Char :=
  format_explanation (metaTrunc (removeAnsSent (explCandidate block)))

/-- Value captured by re.search(r'Subject:\)\s*(.*)', block) (lines 144-145,
case-sensitive, no DOTALL): greedy \s* crosses newlines; group 1 runs to the
end of that line; then .strip(). -/
def subjM (l : List Char) : Option (List Char) :=
  if List.isPrefixOf ("Subject:)".toList) l then
    some (pstrip (((l.drop 9).dropWhile isPySpace).takeWhile (fun c => c != '\n')))
  else none

def subjectOf (block : List Char) : List Char :=
  match firstMatch subjM block with
  | some v => v
  | none => "General".toList

/-- Value captured by re.search(r'Topic:\)\s*(.*)', block) (lines 147-148). -/
def topicM (l : List Char) : Option (List Char) :=
  if List.isPrefixOf ("Topic:)".toList) l then
    some (pstrip (((l.drop 7).dropWhile isPySpace).takeWhile (fun c => c != '\n')))
  else none

def topicOf (block : List Char) : List Char :=
  match firstMatch topicM block with
  | some v => v
  | none => "GS".toList

/-- Test for the option-start marker (line 152):
re.search(r'\n\s*a[\)\.]', block) — case-sensitive lower-case a; greedy \s*
is maximal munch (a is not whitespace). -/
def optStartTest (l : List Char) : Bool :=
  match l with
  | '\n' :: t =>
    match t.drop (wsCount t) with
    | 'a' :: ')' :: _ => true
    | 'a' :: '.' :: _ => true
    | _ => false
  | _ => false

/-- Test for the end-of-options marker (line 161):
re.search(r'\n\s*(?:Ans|Exp)', region, re.IGNORECASE). -/
def ansExpTest (l : List Char) : Bool :=
  match l with
  | '\n' :: t =>
    let t2 := t.drop (wsCount t)
    ciPrefixEq ("ans".toList) t2 || ciPrefixEq ("exp".toList) t2
  | _ => false

/-- Matcher for one option marker at a non-initial position (line 167):
the \n branch of (?:^|\n)\s*([a-dA-D])[\)\.].  Returns the consumed length. -/
def optMarkerTry (l : List Char) : Option Nat :=
  match l with
  | '\n' :: t =>
    let w := wsCount t
    match t.drop w with
    | c :: p :: _ =>
      if isAnsLetter c && (p == ')' || p == '.') then some (1 + w + 2) else none
    | _ => none
  | _ => none

/-- Matcher for an option marker at position 0 (the ^ branch of the same
pattern; when the region starts with a newline both branches consume the
same whitespace run, so trying ^ first is faithful to the engine). -/
def optMarkerStartTry (l : List Char) : Option Nat :=
  let w := wsCount l
  match l.drop w with
  | c :: p :: _ =>
    if isAnsLetter c && (p == ')' || p == '.') then some (w + 2) else none
  | _ => none

/-- Rest of the region after the first option marker found by
re.finditer (line 167); scanning starts at position 0 where the ^ branch
applies, later positions require a newline. -/
def findFirstOptRest : Bool → List Char → Option (List Char)
  | atStart, l =>
    match (if atStart then optMarkerStartTry l else optMarkerTry l) with
    | some n => some (l.drop n)
    | none =>
      match l with
      | [] => none
      | _ :: cs => findFirstOptRest false cs

/-- The options texts (lines 166-171): one entry per finditer match, the
text between that match's end and the next match's start (or the region end
for the last match), each .strip()ped. -/
def scanOptions (optsBlock : List Char) : List (List Char) :=
  match findFirstOptRest true optsBlock with
  | none => []
  | some rest => (splitScanAux optMarkerTry rest 0 []).map pstrip

/-- Fixed error sentinel for the stem (line 173). -/
def errSentinel : List Char := "Error parsing question text.".toList

/-- Fixed error placeholder for options (line 174). -/
def parseErrorStr : List Char := "Parse Error".toList

/-- Question stem and raw options list (lines 150-174).  When the option
start marker exists, the stem is the stripped text before it and the options
come from the region running to the first Ans/Exp marker (or block end);
otherwise the error sentinel and four error placeholders. -/
def stemAndOptions (block : List Char) : List Char × List (List Char) :=
  match findSplit optStartTest block with
  | some (before, fromMarker) =>
    let opts_block :=
      match findSplit ansExpTest fromMarker with
      | some (region, _) => region
      | none => fromMarker
    (pstrip before, scanOptions opts_block)
  | none => (errSentinel, [parseErrorStr, parseErrorStr, parseErrorStr, parseErrorStr])

/-- Padding (line 177): while len(options) < 4: options.append("-"). -/
def padOptions (opts : List (List Char)) : List (List Char) :=
  opts ++ List.replicate (4 - opts.length) ("-".toList)

/-- Assembly of one block's record (lines 106-187), on the stripped block. -/
def assembleBlock (idx : Nat) (block : List Char) : Record :=
  { id := idx + 1,
    text := (stemAndOptions block).1,
    options := padOptions (stemAndOptions block).2,
    correctAnswer := correctAnswerOf block,
    explanation := cleanExplanation block,
    subject := subjectOf block,
    topic := topicOf block }

/-- The per-block loop of lines 105-191, with the try/except modelled by an
Option-returning assembly step: a block whose stripped text is empty is
skipped (line 108); a block whose assembly fails contributes no record and
one diagnostic carrying its 1-based position (line 191 prints idx + 1);
otherwise the assembled record is appended.  Returns (records, diagnostics). -/
def parseLoop (asm : Nat → List Char → Option Record) :
    List (List Char) → Nat → List Record × List Nat
  | [], _ => ([], [])
  | b :: bs, idx =>
    let rest := parseLoop asm bs (idx + 1)
    if pstrip b = [] then rest
    else
      match asm idx (pstrip b) with
      | some r => (r :: rest.1, rest.2)
      | none => (rest.1, (idx + 1) :: rest.2)

/-- The actual assembly step: total, never fails (no statement in the try
body of lines 106-188 can raise on a string input). -/
def asmSome : Nat → List Char → Option Record :=
  fun idx block => some (assembleBlock idx block)

/-- parse_forum_ias (lines 92-193): clean, split into blocks, assemble each. -/
def parse_forum_ias (text : List Char) : List Record :=
  (parseLoop asmSome (blocksOf text) 0).1

/-! ## Spec-side characterisations -/

/-- The 1-based positions (among all blocks, counting from the given start
index) of the blocks whose stripped text is nonempty — the id values the
loop of lines 105-188 hands out. -/
def emittedIds : List (List Char) → Nat → List Nat
  | [], _ => []
  | b :: bs, i =>
    if pstrip b = [] then emittedIds bs (i + 1) else (i + 1) :: emittedIds bs (i + 1)

/-- The two-tier answer dispatch exactly as §4.3 of the spec words it:
first the sentence search inside the explanation candidate, then the
whole-block tag, else -1. -/
def answerDispatch (block : List Char) : Int :=
  match firstMatch ansSentLetterM (explCandidate block) with
  | some c => mappingGet (lowerC c)
  | none =>
    match firstMatch ansTagM block with
    | some c => mappingGet (lowerC c)
    | none => -1

/-- One literal "<br>" and runs of them (for the C9 statements). -/
def brTok : List Char := "<br>".toList

def brRun (n : Nat) : List Char := (List.replicate n brTok).flatten

/-! ## Concrete inputs used by counterexamples and witnesses -/

/-- Document whose first question block is empty: "Q.1)" is immediately
followed by the "Q.2)" marker. -/
def exC1 : List Char :=
  "\nQ.1)\nQ.2) W?\na) x\nb) y\nc) z\nd) w".toList

/-- Question block carrying five option markers (the letter a repeats). -/
def exC2 : List Char :=
  "\nQ.1) W?\na) 1\nb) 2\nc) 3\nd) 4\na) 5".toList

/-- Explanation in which deleting the two answer-sentence matches found in
one pass splices the remaining text into a fresh copy of the sentence. -/
def exC6 : List Char :=
  "\nQ.1) W?\na) x\nb) y\nc) z\nd) w\nExp) a is the correct a is the correct answer answer".toList

/-- Block with no option-start marker but a resolvable answer tag. -/
def exC8block : List Char := "W?\nAns) c\nExp) stuff".toList

/-- Input on which removing the phone-number junk string splices the two
remaining fragments into a fresh copy of that same junk string. -/
def exC4 : List Char := "9311740400, 9311740400, 93117409009311740900".toList

/-- Assembly step that fails exactly at block position 1 (a stand-in for an
exception raised while assembling that block). -/
def asmFail1 : Nat → List Char → Option Record :=
  fun i b => if i = 1 then none else asmSome i b

def preW : List (List Char) := [("q1?".toList)]

def postW : List (List Char) := [("q3?".toList)]

def bW : List Char := "bad".toList

/-- No three consecutive newline characters anywhere in the list (the
invariant the newline-collapse step establishes). -/
def noTriple : List Char → Bool
  | c1 :: c2 :: c3 :: t =>
    !(c1 == '\n' && c2 == '\n' && c3 == '\n') && noTriple (c2 :: c3 :: t)
  | _ => true

/-! ## Loop lemmas -/

theorem assembleBlock_id (i : Nat) (b : List Char) : (assembleBlock i b).id = i + 1 := rfl

theorem parseLoop_map_id (bs : List (List Char)) :
    ∀ i, ((parseLoop asmSome bs i).1).map Record.id = emittedIds bs i := by
  induction bs with
  | nil => intro i; rfl
  | cons b bs ih =>
    intro i
    by_cases h : pstrip b = []
    · simp [parseLoop, emittedIds, h, ih i.succ]
    · simp [parseLoop, emittedIds, h, ih i.succ, asmSome, assembleBlock_id]

theorem emittedIds_lt (bs : List (List Char)) :
    ∀ i x, x ∈ emittedIds bs i → i < x := by
  induction bs with
  | nil => intro i x hx; simp [emittedIds] at hx
  | cons b bs ih =>
    intro i x hx
    by_cases h : pstrip b = []
    · simp only [emittedIds, if_pos h] at hx
      exact Nat.lt_of_succ_lt (ih (i + 1) x hx)
    · simp only [emittedIds, if_neg h, List.mem_cons] at hx
      rcases hx with rfl | hx
      · exact Nat.lt_succ_self i
      · exact Nat.lt_of_succ_lt (ih (i + 1) x hx)

theorem emittedIds_chain (bs : List (List Char)) :
    ∀ i, List.Chain' (· < ·) (emittedIds bs i) := by
  induction bs with
  | nil => intro i; simp [emittedIds]
  | cons b bs ih =>
    intro i
    by_cases h : pstrip b = []
    · simpa [emittedIds, h] using ih (i + 1)
    · simp only [emittedIds, if_neg h]
      refine List.chain'_cons'.mpr ⟨fun y hy => ?_, ih (i + 1)⟩
      exact emittedIds_lt bs (i + 1) y (List.mem_of_mem_head? hy)

theorem parseLoop_append (asm : Nat → List Char → Option Record)
    (xs ys : List (List Char)) : ∀ i,
    parseLoop asm (xs ++ ys) i =
      ((parseLoop asm xs i).1 ++ (parseLoop asm ys (i + xs.length)).1,
       (parseLoop asm xs i).2 ++ (parseLoop asm ys (i + xs.length)).2) := by
  induction xs with
  | nil => intro i; simp [parseLoop]
  | cons b bs ih =>
    intro i
    have hl : i + (b :: bs).length = i + 1 + bs.length := by
      simp [List.length_cons]; omega
    rw [hl]
    simp only [List.cons_append, parseLoop, List.append_eq]
    rw [ih (i + 1)]
    by_cases h : pstrip b = []
    · simp [h]
    · simp only [if_neg h]
      cases asm i (pstrip b) <;> simp

/-! ## No-marker lemmas (for C3) -/

theorem firstMatch_cons_none {β : Type} (m : List Char → Option β) (c : Char)
    (cs : List Char) (h : firstMatch m (c :: cs) = none) :
    m (c :: cs) = none ∧ firstMatch m cs = none := by
  cases hm : m (c :: cs) with
  | none =>
    refine ⟨rfl, ?_⟩
    simpa [firstMatch, hm] using h
  | some r => simp [firstMatch, hm] at h

theorem splitScanAux_of_no_match (m : List Char → Option Nat) :
    ∀ (t acc : List Char), firstMatch m t = none →
      splitScanAux m t 0 acc = [acc.reverse ++ t] := by
  intro t
  induction t with
  | nil => intro acc _; simp [splitScanAux]
  | cons c cs ih =>
    intro acc h
    obtain ⟨h1, h2⟩ := firstMatch_cons_none m c cs h
    simp only [splitScanAux, h1]
    rw [ih (c :: acc) h2]
    simp

/-! ## Claim C1 -/

/-- C1 is false on the code: in this document the only emitted record sits at
emitted position 1 yet carries id 2, because the empty first block is skipped
while the counter keeps running over block positions. -/
theorem c1_counterexample :
    (parse_forum_ias exC1).length = 1 ∧
    (parse_forum_ias exC1).map Record.id = [2] := by decide

/-- C1 (amended): every emitted record's id is 1 plus its block's 0-based
position among the segments produced by the block split (after discarding
the preamble segment) — i.e. ids follow original block position, not emitted
position, so skipped or dropped blocks leave gaps in the id sequence. -/
theorem c1_amended_id_by_block_position (text : List Char) :
    (parse_forum_ias text).map Record.id = emittedIds (blocksOf text) 0 :=
  parseLoop_map_id (blocksOf text) 0

/-! ## Claim C2 -/

/-- C2 is false on the code: a block with five option markers yields a record
whose options list has five entries (padding never truncates). -/
theorem c2_counterexample :
    (parse_forum_ias exC2).map (fun r => r.options.length) = [5] := by decide

/-- C2 (amended): the emitted options list has length max 4 k where k is the
number of option markers matched in the option region (k entries are kept in
match order and padding with the placeholder only ever extends up to 4; with
more than 4 markers all of them are emitted). -/
theorem c2_amended_options_length (i : Nat) (b : List Char) :
    (assembleBlock i b).options.length = max 4 (stemAndOptions b).2.length := by
  show (padOptions (stemAndOptions b).2).length = _
  unfold padOptions
  simp only [List.length_append, List.length_replicate]
  omega

/-! ## Claim C3 -/

/-- C3: if the cleaned text contains no question-start marker, the parser
returns the empty record list (re.split yields a single segment, the
preamble drop removes it, and the loop over no blocks emits nothing). -/
theorem c3_no_marker_empty (text : List Char)
    (h : hasQMarker (clean_garbage_text text) = false) :
    parse_forum_ias text = [] := by
  have hfm : firstMatch qMarkerTry (clean_garbage_text text) = none := by
    unfold hasQMarker at h
    cases hq : firstMatch qMarkerTry (clean_garbage_text text) with
    | none => rfl
    | some v => rw [hq] at h; simp at h
  unfold parse_forum_ias blocksOf reSplit
  rw [splitScanAux_of_no_match qMarkerTry _ [] hfm]
  simp [parseLoop]

/-- Witness for C3 at a concrete marker-free document. -/
theorem c3_no_marker_empty_witness :
    hasQMarker (clean_garbage_text ("hello there".toList)) = false ∧
    parse_forum_ias ("hello there".toList) = [] :=
  ⟨by decide, c3_no_marker_empty ("hello there".toList) (by decide)⟩

/-! ## Collapse lemmas (for C4) -/

theorem noTriple_tail (c : Char) (l : List Char) (h : noTriple (c :: l) = true) :
    noTriple l = true := by
  match l with
  | [] => rfl
  | [x] => rfl
  | x :: y :: t =>
    have he : noTriple (c :: x :: y :: t) =
        (!(c == '\n' && x == '\n' && y == '\n') && noTriple (x :: y :: t)) := rfl
    rw [he] at h
    simp only [Bool.and_eq_true] at h
    exact h.2

theorem noTriple_suffix (x l : List Char) (h : noTriple (x ++ l) = true) :
    noTriple l = true := by
  induction x with
  | nil => exact h
  | cons c x ih => exact ih (noTriple_tail c _ h)

theorem noTriple_cons_of_ne (c : Char) (hc : c ≠ '\n') (l : List Char)
    (hl : noTriple l = true) : noTriple (c :: l) = true := by
  match l with
  | [] => rfl
  | [x] => rfl
  | x :: y :: t =>
    have he : noTriple (c :: x :: y :: t) =
        (!(c == '\n' && x == '\n' && y == '\n') && noTriple (x :: y :: t)) := rfl
    rw [he, hl]
    simp [hc]

theorem noTriple_one_nl_cons (c : Char) (hc : c ≠ '\n') (l : List Char)
    (hl : noTriple (c :: l) = true) : noTriple ('\n' :: c :: l) = true := by
  match l with
  | [] => rfl
  | x :: t =>
    have he : noTriple ('\n' :: c :: x :: t) =
        (!(('\n' : Char) == '\n' && c == '\n' && x == '\n') && noTriple (c :: x :: t)) := rfl
    rw [he, hl]
    simp [hc]

theorem noTriple_two_nl_cons (c : Char) (hc : c ≠ '\n') (l : List Char)
    (hl : noTriple (c :: l) = true) : noTriple ('\n' :: '\n' :: c :: l) = true := by
  have h1 := noTriple_one_nl_cons c hc l hl
  have he : noTriple ('\n' :: '\n' :: c :: l) =
      (!(('\n' : Char) == '\n' && ('\n' : Char) == '\n' && c == '\n') &&
        noTriple ('\n' :: c :: l)) := rfl
  rw [he, h1]
  simp [hc]

theorem noTriple_pad (k : Nat) (hk : k ≤ 2) (c : Char) (hc : c ≠ '\n')
    (l : List Char) (hl : noTriple l = true) :
    noTriple (List.replicate k '\n' ++ c :: l) = true := by
  interval_cases k
  · simpa using noTriple_cons_of_ne c hc l hl
  · simpa using noTriple_one_nl_cons c hc l (noTriple_cons_of_ne c hc l hl)
  · simpa using noTriple_two_nl_cons c hc l (noTriple_cons_of_ne c hc l hl)

theorem noTriple_replicate_min (seen : Nat) :
    noTriple (List.replicate (min seen 2) '\n') = true := by
  have h : min seen 2 = 0 ∨ min seen 2 = 1 ∨ min seen 2 = 2 := by omega
  rcases h with h | h | h <;> rw [h] <;> rfl

theorem noTriple_collapseAux (l : List Char) :
    ∀ seen, noTriple (collapseAux seen l) = true := by
  induction l with
  | nil => intro seen; exact noTriple_replicate_min seen
  | cons c t ih =>
    intro seen
    by_cases hc : c = '\n'
    · rw [collapseAux, if_pos hc]
      exact ih (seen + 1)
    · rw [collapseAux, if_neg hc]
      exact noTriple_pad _ (Nat.min_le_right seen 2) c hc _ (ih 0)

theorem collapseAux_of_noTriple :
    ∀ (t : List Char) (seen : Nat), seen ≤ 2 →
      noTriple (List.replicate seen '\n' ++ t) = true →
      collapseAux seen t = List.replicate seen '\n' ++ t := by
  intro t
  induction t with
  | nil =>
    intro seen hs _
    rw [collapseAux, Nat.min_eq_left hs]
    simp
  | cons c t ih =>
    intro seen hs h
    by_cases hc : c = '\n'
    · subst hc
      have hseen : seen ≤ 1 := by
        by_contra hgt
        have h2 : seen = 2 := by omega
        subst h2
        have hfalse : noTriple (List.replicate 2 '\n' ++ '\n' :: t) = false := rfl
        rw [hfalse] at h
        simp at h
      have heq : List.replicate seen '\n' ++ '\n' :: t =
          List.replicate (seen + 1) '\n' ++ t := by
        rw [List.replicate_succ']
        simp
      rw [collapseAux, if_pos rfl]
      rw [ih (seen + 1) (by omega) (by rw [← heq]; exact h), heq]
    · rw [collapseAux, if_neg hc, Nat.min_eq_left hs]
      have ht : noTriple t = true := noTriple_tail c t (noTriple_suffix _ _ h)
      rw [ih 0 (by omega) (by simpa using ht)]
      simp

theorem collapseNl_idem (l : List Char) : collapseNl (collapseNl l) = collapseNl l := by
  unfold collapseNl
  have h := collapseAux_of_noTriple (collapseAux 0 l) 0 (by omega)
    (by simpa using noTriple_collapseAux l 0)
  simpa using h

/-! ## Claim C4 -/

/-- C4 is false on the code: on this input the junk-string removal pass
splices the two surviving fragments into a fresh copy of the junk string, so
a second run of clean_garbage_text removes it and changes the text again. -/
theorem c4_counterexample :
    clean_garbage_text (clean_garbage_text exC4) ≠ clean_garbage_text exC4 := by decide

/-- C4 (amended): clean_garbage_text is idempotent exactly on inputs whose
cleaned form is left unchanged by the three removal passes (no surviving or
newly spliced noise-pattern occurrence); the final newline-collapse pass is
unconditionally idempotent, so a second run then changes nothing. -/
theorem c4_amended_idempotent_when_stable (s : List Char)
    (h1 : sfgSub (clean_garbage_text s) = clean_garbage_text s)
    (h2 : footerSub (clean_garbage_text s) = clean_garbage_text s)
    (h3 : junkSub (clean_garbage_text s) = clean_garbage_text s) :
    clean_garbage_text (clean_garbage_text s) = clean_garbage_text s := by
  have hdef : ∀ t, clean_garbage_text t = collapseNl (junkSub (footerSub (sfgSub t))) :=
    fun _ => rfl
  rw [hdef (clean_garbage_text s), h1, h2, h3, hdef s]
  exact collapseNl_idem _

/-- Witness for the amended C4 at a concrete stable input. -/
theorem c4_amended_witness :
    (sfgSub (clean_garbage_text ("hi there".toList)) = clean_garbage_text ("hi there".toList) ∧
     footerSub (clean_garbage_text ("hi there".toList)) = clean_garbage_text ("hi there".toList) ∧
     junkSub (clean_garbage_text ("hi there".toList)) = clean_garbage_text ("hi there".toList)) ∧
    clean_garbage_text (clean_garbage_text ("hi there".toList)) =
      clean_garbage_text ("hi there".toList) :=
  ⟨⟨by decide, by decide, by decide⟩,
   c4_amended_idempotent_when_stable ("hi there".toList) (by decide) (by decide) (by decide)⟩

/-! ## Claim C5 -/

/-- C5: per-block failure isolation in the loop of lines 105-191 (the
try/except is modelled by the Option-returning assembly step of parseLoop).
If the non-skipped block at position pre.length fails to assemble, the record
sequence is exactly the records of the blocks before it followed by the
records of the blocks after it (assembled at their own positions, so no
partial record appears for the failed block), and the diagnostics name the
failed block's 1-based position. -/
theorem c5_failure_isolation (asm : Nat → List Char → Option Record)
    (pre post : List (List Char)) (b : List Char)
    (hb : pstrip b ≠ []) (hfail : asm pre.length (pstrip b) = none) :
    (parseLoop asm (pre ++ b :: post) 0).1 =
      (parseLoop asm pre 0).1 ++ (parseLoop asm post (pre.length + 1)).1 ∧
    pre.length + 1 ∈ (parseLoop asm (pre ++ b :: post) 0).2 := by
  have happ := parseLoop_append asm pre (b :: post) 0
  have hmid : parseLoop asm (b :: post) pre.length =
      ((parseLoop asm post (pre.length + 1)).1,
       (pre.length + 1) :: (parseLoop asm post (pre.length + 1)).2) := by
    simp only [parseLoop, if_neg hb, hfail]
  rw [Nat.zero_add] at happ
  rw [happ, hmid]
  exact ⟨rfl, by simp⟩

/-- Witness for C5 at a concrete three-block sequence whose middle block
fails. -/
theorem c5_failure_isolation_witness :
    pstrip bW ≠ [] ∧
    ((parseLoop asmFail1 (preW ++ bW :: postW) 0).1 =
      (parseLoop asmFail1 preW 0).1 ++ (parseLoop asmFail1 postW (preW.length + 1)).1 ∧
     preW.length + 1 ∈ (parseLoop asmFail1 (preW ++ bW :: postW) 0).2) :=
  ⟨by decide, c5_failure_isolation asmFail1 preW postW bW (by decide) (by decide)⟩

/-! ## Answer-dispatch lemmas (for C6, C7, C8) -/

theorem correctAnswerOf_eq_dispatch (b : List Char) :
    correctAnswerOf b = answerDispatch b := by
  unfold correctAnswerOf answerDispatch
  cases h1 : firstMatch ansSentLetterM (explCandidate b) with
  | some c => simp
  | none => cases h2 : firstMatch ansTagM b <;> simp

theorem firstMatch_some_exists {β : Type} (m : List Char → Option β)
    (l : List Char) (x : β) (h : firstMatch m l = some x) :
    ∃ l', m l' = some x := by
  induction l with
  | nil => exact ⟨[], h⟩
  | cons c cs ih =>
    cases hm : m (c :: cs) with
    | some r =>
      simp only [firstMatch, hm] at h
      exact ⟨c :: cs, by rw [hm, h]⟩
    | none =>
      simp only [firstMatch, hm] at h
      exact ih h

theorem ansSentence_letter (l : List Char) (c : Char) (n : Nat)
    (h : ansSentence l = some (c, n)) : isAnsLetter c = true := by
  match l with
  | [] => simp [ansSentence] at h
  | d :: rest =>
    by_cases hd : isAnsLetter d
    · simp only [ansSentence, if_pos hd] at h
      cases hst : sentTail rest with
      | none => rw [hst] at h; simp at h
      | some k =>
        rw [hst] at h
        simp at h
        rw [← h.1]
        exact hd
    · simp only [ansSentence, if_neg hd] at h
      simp at h

theorem ansSentLetterM_letter (l : List Char) (c : Char)
    (h : ansSentLetterM l = some c) : isAnsLetter c = true := by
  unfold ansSentLetterM at h
  cases ha : ansSentence l with
  | none => rw [ha] at h; simp at h
  | some p =>
    rw [ha] at h
    simp at h
    obtain ⟨c1, n1⟩ := p
    rw [← h]
    exact ansSentence_letter l c1 n1 ha

theorem ansTagM_letter (l : List Char) (c : Char) (h : ansTagM l = some c) :
    isAnsLetter c = true := by
  unfold ansTagM at h
  cases ha : ansTagAfter l with
  | none => rw [ha] at h; simp at h
  | some r =>
    rw [ha] at h
    have h' : (match List.drop (wsCount r) r with
        | c :: _ => if isAnsLetter c then some c else none
        | [] => none) = some c := h
    cases hd : r.drop (wsCount r) with
    | nil => rw [hd] at h'; simp at h'
    | cons c1 rest =>
      rw [hd] at h'
      have h2 : (if isAnsLetter c1 then some c1 else none) = some c := h'
      by_cases hc : isAnsLetter c1
      · rw [if_pos hc] at h2
        injection h2 with h3
        rw [← h3]
        exact hc
      · rw [if_neg hc] at h2
        simp at h2

theorem isAnsLetter_cases (c : Char) (h : isAnsLetter c = true) :
    c = 'a' ∨ c = 'b' ∨ c = 'c' ∨ c = 'd' ∨
    c = 'A' ∨ c = 'B' ∨ c = 'C' ∨ c = 'D' := by
  unfold isAnsLetter at h
  simp only [Bool.or_eq_true, beq_iff_eq] at h
  tauto

theorem mappingGet_mem (c : Char) :
    mappingGet c ∈ ([-1, 0, 1, 2, 3] : List Int) := by
  unfold mappingGet
  repeat' split
  all_goals simp

theorem mappingGet_lower_ne_neg_one (c : Char) (h : isAnsLetter c = true) :
    mappingGet (lowerC c) ≠ -1 := by
  rcases isAnsLetter_cases c h with rfl | rfl | rfl | rfl | rfl | rfl | rfl | rfl <;> decide

/-! ## Claim C6 -/

/-- C6 is false as stated: the removal sub deletes only the non-overlapping
answer-sentence matches found in one left-to-right pass, and deleting them
can splice the remaining text into a fresh copy of the sentence, which then
survives into the final explanation of the emitted record. -/
theorem c6_counterexample :
    (parse_forum_ias exC6).map (fun r => r.correctAnswer) = [0] ∧
    (parse_forum_ias exC6).map (fun r => r.explanation) =
      [("a is the correct answer".toList)] ∧
    (parse_forum_ias exC6).map
      (fun r => hasSubstr (("a is the correct answer".toList)) r.explanation) = [true] := by
  decide

/-- C6 (amended): answer detection is the priority-ordered two-tier dispatch
exactly as claimed (explanation-sentence search first, Ans/Answer tag only
when it is absent, -1 when both fail), and the final explanation is the
explanation candidate after one left-to-right pass deleting the
non-overlapping answer-sentence matches (so the matched sentence is usually,
but not always, absent: deletion can splice a new occurrence), followed by
metadata truncation and formatting. -/
theorem c6_amended_priority_dispatch (i : Nat) (b : List Char) :
    (assembleBlock i b).correctAnswer = answerDispatch b ∧
    (assembleBlock i b).explanation =
      format_explanation (metaTrunc (removeAnsSent (explCandidate b))) :=
  ⟨correctAnswerOf_eq_dispatch b, rfl⟩

/-! ## Claim C7 -/

/-- C7: the letter mapping is total on {a,b,c,d,A,B,C,D} with a/A to 0, b/B
to 1, c/C to 2, d/D to 3 (the captured letter is lower-cased before the
lookup), every record's correctAnswer lies in {-1,0,1,2,3}, and it is -1
exactly when neither the explanation-sentence search nor the tag search
found an answer letter. -/
theorem c7_mapping_total_and_range :
    (mappingGet (lowerC 'a') = 0 ∧ mappingGet (lowerC 'b') = 1 ∧
     mappingGet (lowerC 'c') = 2 ∧ mappingGet (lowerC 'd') = 3 ∧
     mappingGet (lowerC 'A') = 0 ∧ mappingGet (lowerC 'B') = 1 ∧
     mappingGet (lowerC 'C') = 2 ∧ mappingGet (lowerC 'D') = 3) ∧
    ∀ i b, (assembleBlock i b).correctAnswer ∈ ([-1, 0, 1, 2, 3] : List Int) ∧
      ((assembleBlock i b).correctAnswer = -1 ↔
        firstMatch ansSentLetterM (explCandidate b) = none ∧
        firstMatch ansTagM b = none) := by
  refine ⟨by decide, fun i b => ?_⟩
  have hca : (assembleBlock i b).correctAnswer = answerDispatch b :=
    correctAnswerOf_eq_dispatch b
  rw [hca]
  unfold answerDispatch
  cases h1 : firstMatch ansSentLetterM (explCandidate b) with
  | some c =>
    obtain ⟨l', hl'⟩ := firstMatch_some_exists _ _ _ h1
    have hc := ansSentLetterM_letter l' c hl'
    exact ⟨mappingGet_mem _, by simp [mappingGet_lower_ne_neg_one c hc]⟩
  | none =>
    cases h2 : firstMatch ansTagM b with
    | some c =>
      obtain ⟨l', hl'⟩ := firstMatch_some_exists _ _ _ h2
      have hc := ansTagM_letter l' c hl'
      exact ⟨mappingGet_mem _, by simp [mappingGet_lower_ne_neg_one c hc]⟩
    | none => exact ⟨by decide, by simp⟩

/-! ## Claim C8 -/

/-- C8: a block with no option-start marker still yields a record, whose stem
is the fixed error sentinel, whose four options all carry the fixed error
placeholder, and whose correctAnswer is still computed by the usual two-tier
Ans/Exp dispatch, independent of the failed option parse. -/
theorem c8_degraded_block (i : Nat) (b : List Char)
    (h : findSplit optStartTest b = none) :
    (assembleBlock i b).text = errSentinel ∧
    (assembleBlock i b).options =
      [parseErrorStr, parseErrorStr, parseErrorStr, parseErrorStr] ∧
    (assembleBlock i b).correctAnswer = answerDispatch b := by
  have hso : stemAndOptions b =
      (errSentinel, [parseErrorStr, parseErrorStr, parseErrorStr, parseErrorStr]) := by
    unfold stemAndOptions
    rw [h]
  refine ⟨?_, ?_, correctAnswerOf_eq_dispatch b⟩
  · show (stemAndOptions b).1 = _
    rw [hso]
  · show padOptions (stemAndOptions b).2 = _
    rw [hso]
    rfl

/-- Witness for C8 at a concrete block lacking the option marker but carrying
an Ans) tag that still resolves to index 2. -/
theorem c8_degraded_block_witness :
    findSplit optStartTest exC8block = none ∧
    ((assembleBlock 0 exC8block).text = errSentinel ∧
     (assembleBlock 0 exC8block).options =
       [parseErrorStr, parseErrorStr, parseErrorStr, parseErrorStr] ∧
     (assembleBlock 0 exC8block).correctAnswer = answerDispatch exC8block) :=
  ⟨by decide, c8_degraded_block 0 exC8block (by decide)⟩

/-! ## Replacement-pass lemmas (for C9) -/

theorem subScanAux_skip (m : List Char → Option (Nat × List Char)) :
    ∀ (x l : List Char), subScanAux m (x ++ l) x.length = subScanAux m l 0 := by
  intro x
  induction x with
  | nil => intro l; rfl
  | cons c x ih => intro l; exact ih l

theorem isPrefixOf_append_self :
    ∀ (x l : List Char), List.isPrefixOf x (x ++ l) = true := by
  intro x
  induction x with
  | nil => intro l; simp [List.isPrefixOf]
  | cons c x ih => intro l; simp [List.isPrefixOf, ih l]

theorem subScanAux_match (m : List Char → Option (Nat × List Char)) (c : Char)
    (cs : List Char) (n : Nat) (repl : List Char) (h : m (c :: cs) = some (n, repl)) :
    subScanAux m (c :: cs) 0 = repl ++ subScanAux m cs (n - 1) := by
  rw [subScanAux, h]

theorem brCleanup_cons_match (l : List Char) :
    brCleanup (("<br><br><br>".toList) ++ l) = ("<br><br>".toList) ++ brCleanup l := by
  unfold brCleanup pyReplace reSub
  have h1 : ("<br><br><br>".toList) ++ l = '<' :: (("br><br><br>".toList) ++ l) := rfl
  have hm : (fun t => if List.isPrefixOf ("<br><br><br>".toList) t then
        some ((("<br><br><br>".toList)).length, ("<br><br>".toList)) else none)
      ('<' :: (("br><br><br>".toList) ++ l)) = some (12, ("<br><br>".toList)) := by
    rw [← h1]
    simp [isPrefixOf_append_self]
  rw [h1, subScanAux_match _ _ _ _ _ hm]
  rw [show (12 - 1 : Nat) = (("br><br><br>".toList)).length from rfl]
  rw [subScanAux_skip]

theorem brRun_add (a b : Nat) : brRun (a + b) = brRun a ++ brRun b := by
  unfold brRun
  rw [List.replicate_add, List.flatten_append]

/-! ## Claim C9 -/

/-- C9 is false as stated: a run of three double-breaks (six br tokens)
collapses to four br tokens, not to a single double-break, and on a run of
nine br tokens the output still contains three consecutive double-break
sequences. -/
theorem c9_counterexample :
    format_explanation (brRun 6 ++ ['x']) = brRun 4 ++ ['x'] ∧
    brRun 4 ++ ['x'] ≠ brRun 2 ++ ['x'] ∧
    hasSubstr (brRun 6) (format_explanation (brRun 9 ++ ['x'])) = true := by
  decide

/-- C9 (amended): the final cleanup is a single left-to-right pass replacing
each non-overlapping occurrence of three consecutive br tokens by two, so a
run of 3n br tokens shrinks to 2n tokens; longer runs are only partially
collapsed and the result can still contain three consecutive double-breaks. -/
theorem c9_amended_single_pass_collapse (n : Nat) :
    brCleanup (brRun (3 * n)) = brRun (2 * n) := by
  induction n with
  | zero => rfl
  | succ k ih =>
    have h3 : 3 * (k + 1) = 3 + 3 * k := by ring
    have h2 : 2 * (k + 1) = 2 + 2 * k := by ring
    rw [h3, h2, brRun_add, brRun_add]
    rw [show brRun 3 = ("<br><br><br>".toList) from rfl]
    rw [show brRun 2 = ("<br><br>".toList) from rfl]
    rw [brCleanup_cons_match (brRun (3 * k)), ih]

/-! ## Claim C10 -/

/-- C10: the id fields of the records emitted by parse_forum_ias are strictly
increasing in emission order (each emitted record's id exceeds every earlier
one's), whether or not intermediate blocks were skipped. -/
theorem c10_ids_strictly_increasing (text : List Char) :
    List.Chain' (· < ·) ((parse_forum_ias text).map Record.id) := by
  have h := parseLoop_map_id (blocksOf text) 0
  unfold parse_forum_ias
  rw [h]
  exact emittedIds_chain (blocksOf text) 0

end PMT
